import Mathlib

/-!
Verification of the retrieval engine of this repository against its
natural-language specification.

The Python sources are shallowly embedded:

* `src/aimakerspace/vectordatabase.py` (`VectorDatabase`) — vector storage,
  insertion, deletion, cosine-similarity search.  Python's insertion-ordered
  `dict` is modelled as a list of records carrying a strictly increasing
  numeric record id (`rid`), which stands for both the `uuid4` identity and
  the insertion position.  The injected `EmbeddingModel` collaborator
  (network calls) is abstracted: embeddings are passed in as values and the
  cosine-similarity function is a parameter `sim`, exactly as the spec
  treats the Embedder as an external capability.  Scores are modelled as
  rationals.
* `src/aimakerspace/text_utils.py` (`CharacterTextSplitter.split_text`) —
  the `while` loop is embedded with an explicit fuel argument (structural
  recursion); termination of the Python loop is the statement that the fuel
  `length + 1` never runs out.
* `src/api/rag_service.py` (`RAGService`) — keyword validation and the
  `process_pdf` ingest path.  External capabilities (PDF text extraction,
  the AI judge inside `_validate_startup_content`, embedding generation)
  enter as parameters; console printing and `_save_database` (disk I/O) are
  outside the model.  The rendered decimal form of the rounded
  `final_score` is carried as a string, standing for Python's f-string
  rendering of the float.
-/

set_option maxRecDepth 100000

namespace Spec2Proof

/-! ## Embedding of `src/aimakerspace/vectordatabase.py` -/

/-- One entry of `VectorDatabase.vectors`
(`{id: {"text", "embedding", "metadata"}}`).  `rid` models the `uuid4` key;
record ids are strictly increasing in insertion order, mirroring the
insertion-ordered Python `dict`. -/
structure VecRecord where
  rid : Nat
  text : String
  embedding : List ℚ
  metadata : List (String × String)
deriving DecidableEq

/-- The `VectorDatabase` state: `vectors` (insertion-ordered), `dimension`
(`None` until the first successful insert), and the fresh-id source that
models `uuid.uuid4()`. -/
structure VectorDatabase where
  vectors : List VecRecord
  dimension : Option Nat
  nextId : Nat
deriving DecidableEq

/-- `VectorDatabase.add_text` (vectordatabase.py lines 16–35).  The
embedding produced by the collaborator is passed in.  Python raises
`ValueError` for an empty embedding and for a dimension mismatch; either
raise happens before any mutation, so the error branch returns the store
unchanged. -/
def add_text (db : VectorDatabase) (text : String) (embedding : List ℚ)
    (metadata : List (String × String)) : Except String Nat × VectorDatabase :=
  if embedding.isEmpty then
    (.error ("Failed to generate embedding for text: " ++ text), db)
  else
    match db.dimension with
    | none =>
        (.ok db.nextId,
          { vectors := db.vectors ++ [⟨db.nextId, text, embedding, metadata⟩],
            dimension := some embedding.length,
            nextId := db.nextId + 1 })
    | some d =>
        if embedding.length = d then
          (.ok db.nextId,
            { vectors := db.vectors ++ [⟨db.nextId, text, embedding, metadata⟩],
              dimension := some d,
              nextId := db.nextId + 1 })
        else
          (.error "Embedding dimension mismatch", db)

/-- `VectorDatabase.add_texts` (lines 37–68): `zip` over texts, embeddings
and metadatas; an empty embedding or a dimension mismatch skips the item
with a warning instead of aborting.  Returns the ids of the items that
succeeded, in input order, together with the updated store. -/
def add_texts (db : VectorDatabase) :
    List String → List (List ℚ) → List (List (String × String)) →
      List Nat × VectorDatabase
  | [], _, _ => ([], db)
  | _ :: _, [], _ => ([], db)
  | _ :: _, _ :: _, [] => ([], db)
  | t :: ts, e :: es, m :: ms =>
    if e.isEmpty then
      add_texts db ts es ms
    else
      match db.dimension with
      | none =>
          let db' : VectorDatabase :=
            { vectors := db.vectors ++ [⟨db.nextId, t, e, m⟩],
              dimension := some e.length,
              nextId := db.nextId + 1 }
          let rest := add_texts db' ts es ms
          (db.nextId :: rest.1, rest.2)
      | some d =>
          if e.length = d then
            let db' : VectorDatabase :=
              { vectors := db.vectors ++ [⟨db.nextId, t, e, m⟩],
                dimension := some d,
                nextId := db.nextId + 1 }
            let rest := add_texts db' ts es ms
            (db.nextId :: rest.1, rest.2)
          else
            add_texts db ts es ms

/-- `VectorDatabase.delete_by_id` (lines 108–113): removes the record with
the given id if present, returning whether a deletion happened.  The
dimension field is not touched. -/
def delete_by_id (db : VectorDatabase) (rid : Nat) : Bool × VectorDatabase :=
  if db.vectors.any (fun r => r.rid = rid) then
    (true, { db with vectors := db.vectors.filter (fun r => r.rid ≠ rid) })
  else
    (false, db)

/-- `VectorDatabase.clear` (lines 115–118): drops all records and resets
`dimension` to `None`. -/
def clear (db : VectorDatabase) : VectorDatabase :=
  { vectors := [], dimension := none, nextId := db.nextId }

/-- One element of the list returned by `VectorDatabase.search`. -/
structure SearchResult where
  rid : Nat
  text : String
  metadata : List (String × String)
  score : ℚ
deriving DecidableEq

/-- One step of the stable descending sort performed by Python's
`similarities.sort(key=lambda x: x["score"], reverse=True)`: insert `x`
(which precedes every element of `l` in the unsorted list) before the first
element whose score it reaches, so that equal scores keep their original
relative order. -/
def insertDesc (x : SearchResult) : List SearchResult → List SearchResult
  | [] => [x]
  | y :: ys => if y.score ≤ x.score then x :: y :: ys else y :: insertDesc x ys

/-- Python's stable `list.sort(key=..., reverse=True)` on search results,
as a stable insertion sort by descending score. -/
def sortDesc : List SearchResult → List SearchResult
  | [] => []
  | x :: xs => insertDesc x (sortDesc xs)

/-- The similarity pass of `VectorDatabase.search` (lines 81–90): for each
stored record, in insertion order, compute the similarity of the query
embedding against the stored embedding and keep the record iff
`similarity >= score_threshold`.  `sim` abstracts
`self.embedding_model.cosine_similarity`. -/
def searchCandidates (sim : List ℚ → List ℚ → ℚ) (db : VectorDatabase)
    (queryEmbedding : List ℚ) (score_threshold : ℚ) : List SearchResult :=
  db.vectors.filterMap (fun r =>
    let s := sim queryEmbedding r.embedding
    if score_threshold ≤ s then
      some { rid := r.rid, text := r.text, metadata := r.metadata, score := s }
    else
      none)

/-- `VectorDatabase.search` (lines 70–95): empty store → `[]`; empty query
embedding → `[]`; otherwise threshold-filter, sort by score descending
(stable), and take the first `top_k`. -/
def search (sim : List ℚ → List ℚ → ℚ) (db : VectorDatabase)
    (queryEmbedding : List ℚ) (top_k : Nat) (score_threshold : ℚ) :
    List SearchResult :=
  if db.vectors.isEmpty then []
  else if queryEmbedding.isEmpty then []
  else (sortDesc (searchCandidates sim db queryEmbedding score_threshold)).take top_k

/-- `VectorDatabase.similarity_search_with_score_threshold` (lines
151–155): first `search(query, top_k=len(self.vectors))` with the *default*
threshold `0.0`, then re-filter by the requested threshold and take
`top_k`. -/
def similarity_search_with_score_threshold (sim : List ℚ → List ℚ → ℚ)
    (db : VectorDatabase) (queryEmbedding : List ℚ) (score_threshold : ℚ)
    (top_k : Nat) : List SearchResult :=
  let results := search sim db queryEmbedding db.vectors.length 0
  (results.filter (fun r => score_threshold ≤ r.score)).take top_k

/-- Well-formedness of a store state: record ids strictly increase along
the insertion order.  Every store reachable from `VectorDatabase.__init__`
satisfies this (fresh ids are drawn from the increasing `nextId`). -/
def DbWF (db : VectorDatabase) : Prop :=
  db.vectors.Pairwise (fun a b => a.rid < b.rid)

instance (db : VectorDatabase) : Decidable (DbWF db) := by
  unfold DbWF; infer_instance

/-- The ranking realised by `VectorDatabase.search`: higher score first,
ties broken by insertion order (smaller record id first). -/
def RankLT (a b : SearchResult) : Prop :=
  b.score < a.score ∨ (a.score = b.score ∧ a.rid < b.rid)

instance (a b : SearchResult) : Decidable (RankLT a b) := by
  unfold RankLT; infer_instance

/-! ## Embedding of `src/aimakerspace/text_utils.py` (`CharacterTextSplitter`) -/

/-- Python's `str.strip()` on a character list: drop whitespace from both
ends. -/
def trimChars (l : List Char) : List Char :=
  ((l.dropWhile Char.isWhitespace).reverse.dropWhile Char.isWhitespace).reverse

/-- Downward scan of `range(i, i - k, -1)`: test indices `i, i-1, …` for
`k` steps, returning the first (largest) index satisfying `p`. -/
def scanBackGo (chars : List Char) (p : Char → Bool) : Nat → Nat → Option Nat
  | 0, _ => none
  | k + 1, i => if p (chars.getD i ' ') then some i else scanBackGo chars p k (i - 1)

/-- Python's `for i in range(i, lo, -1): if p(text[i]): …` — scan indices
from `i` down to `lo + 1`, returning the first index satisfying `p`. -/
def scanBack (chars : List Char) (p : Char → Bool) (lo i : Nat) : Option Nat :=
  scanBackGo chars p (i - lo) i

/-- The boundary adjustment of `split_text` (text_utils.py lines 67–81):
nominal end `start + chunk_size`; if it falls inside the text, scan
backward (starting at the nominal end itself) for a sentence terminator
within `max(start + chunk_size // 2, end - 100)`, else for whitespace
within `max(start + chunk_size // 2, end - 50)`; a sentence hit at `i`
sets the end to `i + 1`, a whitespace hit to `i`. -/
def chunkEnd (chars : List Char) (cs start : Nat) : Nat :=
  let e0 := start + cs
  if e0 < chars.length then
    match scanBack chars (fun c => c == '.' || c == '!' || c == '?')
        (max (start + cs / 2) (e0 - 100)) e0 with
    | some i => i + 1
    | none =>
      match scanBack chars (fun c => c.isWhitespace)
          (max (start + cs / 2) (e0 - 50)) e0 with
      | some i => i
      | none => e0
  else e0

/-- The cursor update `start = max(start + 1, end - overlap)`
(text_utils.py line 88). -/
def nextStart (start e co : Nat) : Nat := max (start + 1) (e - co)

/-- The `while start < len(text)` loop of `split_text`, with an explicit
fuel argument; `none` means the fuel ran out before the loop exited.  Each
iteration emits `text[start:end].strip()` unless it strips to empty. -/
def splitLoopF (chars : List Char) (cs co : Nat) :
    Nat → Nat → Option (List (List Char))
  | 0, _ => none
  | fuel + 1, start =>
    if chars.length ≤ start then some []
    else
      match splitLoopF chars cs co fuel
          (nextStart start (chunkEnd chars cs start) co) with
      | none => none
      | some rest =>
        some (if (trimChars ((chars.drop start).take
              (chunkEnd chars cs start - start))).isEmpty then rest
          else trimChars ((chars.drop start).take
            (chunkEnd chars cs start - start)) :: rest)

/-- `CharacterTextSplitter.split_text` (text_utils.py lines 58–93) with
chunk size `cs` and overlap `co`.  A text of length at most `cs` is
returned whole (`return [text]`); otherwise the windowing loop runs with
fuel `length + 1`, which `splitLoopF_isSome` below shows is always
enough. -/
def split_text (cs co : Nat) (text : String) : List String :=
  if text.data.length ≤ cs then [text]
  else ((splitLoopF text.data cs co (text.data.length + 1) 0).getD []).map
    (fun l => String.mk l)

/-! ## Embedding of `src/api/rag_service.py` (`RAGService`) -/

/-- The `startup_keywords` list of `_validate_startup_content`
(rag_service.py lines 44–77), verbatim and in order.  Note that
`'ecosystem'` appears twice (core terms and growth terms) and that six
entries are written in upper case. -/
def startup_keywords : List String := [
  "startup", "business", "company", "entrepreneur", "venture", "funding", "investment",
  "revenue", "profit", "market", "customer", "product", "service", "strategy",
  "business plan", "pitch", "investor", "valuation", "growth", "scale", "competition",
  "team", "founder", "CEO", "CTO", "board", "equity", "shares", "financial",
  "marketing", "sales", "operations", "model", "vision", "mission", "goals",
  "metrics", "KPI", "ROI", "CAC", "LTV", "churn", "acquisition", "retention",
  "ecosystem", "industry", "sector", "corporate", "organization", "management",
  "lean startup", "agile", "mvp", "minimum viable product", "product market fit",
  "pivot", "iteration", "hypothesis", "validation", "feedback loop", "user research",
  "design thinking", "customer development", "build measure learn", "sprint",
  "scrum", "kanban", "roadmap", "backlog", "user story", "persona", "journey",
  "best practices", "framework", "methodology", "process", "workflow", "optimization",
  "efficiency", "productivity", "performance", "quality", "standards", "guidelines",
  "governance", "compliance", "risk management", "decision making", "leadership",
  "culture", "values", "principles", "ethics", "transparency", "accountability",
  "scaling", "expansion", "market entry", "go to market", "gtm", "launch",
  "product launch", "market penetration", "user acquisition", "growth hacking",
  "viral", "network effects", "platform", "marketplace", "ecosystem",
  "partnership", "collaboration", "integration", "automation", "digitalization",
  "unit economics", "burn rate", "runway", "cash flow", "profitability",
  "monetization", "pricing", "business model", "value proposition", "competitive advantage",
  "market share", "total addressable market", "tam", "sam", "som", "analysis",
  "forecast", "projection", "budget", "planning", "resource allocation"]

/-- Python's `text.lower()` on the character list (ASCII lowering, which
agrees with Python on the ASCII keyword vocabulary). -/
def pyLower (text : String) : List Char :=
  text.data.map Char.toLower

/-- Needle-starts-hay test over character lists (the needle is the first
argument). -/
def startsWithChars : List Char → List Char → Bool
  | [], _ => true
  | _ :: _, [] => false
  | a :: as, b :: bs => a == b && startsWithChars as bs

/-- Python's substring test `needle in hay` over character lists. -/
def containsChars (needle : List Char) : List Char → Bool
  | [] => needle.isEmpty
  | b :: bs => startsWithChars needle (b :: bs) || containsChars needle bs

/-- Python's substring test `needle in hay` on strings. -/
def strContains (hay needle : String) : Bool :=
  containsChars needle.data hay.data

/-- The keyword tally of `_validate_startup_content` (rag_service.py
lines 80–81): `sum(1 for keyword in startup_keywords if keyword in
text_lower)` — entries are counted with multiplicity and each entry is
matched in its listed form against the lower-cased text. -/
def keywordCount (text : String) : Nat :=
  startup_keywords.countP (fun kw => containsChars kw.data (pyLower text))

/-- Modelled from the spec's words for claim C6 (not from the source):
the number of *distinct* vocabulary terms that occur, *case-insensitively*,
as a substring of the lower-cased text. -/
def claimedKeywordCount (text : String) : Nat :=
  (startup_keywords.dedup.filter
    (fun kw => containsChars (kw.data.map Char.toLower) (pyLower text))).length

/-- Whether a string contains an ASCII uppercase letter (code 65–90). -/
def hasUpperAscii (s : String) : Bool :=
  s.data.any (fun c => 65 ≤ c.toNat && c.toNat ≤ 90)

/-- The acceptance threshold of `_validate_startup_content`
(rag_service.py line 121, `is_valid = final_score >= 3.5`), rendered as it
would print. -/
def VALIDATION_THRESHOLD_STR : String := "3.5"

/-- The outcome of `_validate_startup_content` as consumed by
`process_pdf`.  The AI judge call is external, so the whole result enters
`process_pdf` as a value; `final_score` carries Python's decimal rendering
of `round(final_score, 2)`. -/
structure ValidationResult where
  is_valid : Bool
  final_score : String
  ai_reason : String
  validation_details : String
deriving DecidableEq

/-- One entry of `RAGService.document_store` (rag_service.py lines
239–246).  The environment-dependent `processed_at` field (current working
directory) is outside the model. -/
structure DocEntry where
  filename : String
  total_text_length : Nat
  total_chunks : Nat
  chunk_ids : List Nat
  validation_result : ValidationResult
deriving DecidableEq

/-- The mutable state of `RAGService`: the vector store and the
document-metadata store (an insertion-ordered `dict` keyed by filename). -/
structure RAGState where
  vector_db : VectorDatabase
  document_store : List (String × DocEntry)
deriving DecidableEq

/-- The result dictionary returned by `process_pdf`.  `chunks_added` is an
`int` on the fresh-ingest path and the string `"Already processed"` on the
duplicate path, hence the sum type. -/
structure PdfResult where
  success : Bool
  error : Option String
  document_id : Option String
  total_chunks : Option Nat
  chunks_added : Option (Nat ⊕ String)
  message : Option String
  text_preview : Option String
  content_validation_score : Option String
  content_validation_assessment : Option String
  validation_details : Option String
deriving DecidableEq

/-- The user-facing rejection message built by `process_pdf`
(rag_service.py lines 203–206) around the rendered final score. -/
def rejectionError (final_score : String) : String :=
  "This document doesn't appear to contain startup or company-related content. " ++
  "Please upload documents like business plans, company reports, startup guides, " ++
  "or other business-related materials. " ++
  "(Content relevance score: " ++ final_score ++ "/10)"

/-- `RAGService.process_pdf` (rag_service.py lines 158–275).  External
capabilities enter as values: `text` is the extraction outcome
(`loader.load_from_bytes`), `validation` the outcome of
`_validate_startup_content` (which includes the AI judge call), and
`embeddings` the outcome of `embedding_model.get_embeddings(chunks)`
consumed by `add_texts`.  Console printing and `_save_database` (disk I/O)
have no bearing on the returned value or state and are outside the
model.  The `ValueError` raises for empty text and zero chunks are caught
by the surrounding `except` and surface as `success = False` with the
exception text. -/
def process_pdf (st : RAGState) (filename : String) (text : String)
    (validation : ValidationResult) (embeddings : List (List ℚ)) :
    PdfResult × RAGState :=
  match st.document_store.find? (fun p => p.1 == filename) with
  | some (_, entry) =>
      ({ success := true, error := none, document_id := some filename,
         total_chunks := some entry.total_chunks,
         chunks_added := some (.inr "Already processed"),
         message := some ("📋 Document '" ++ filename ++
           "' is already in the knowledge base. No re-processing needed."),
         text_preview := some ("Document '" ++ filename ++
           "' has already been processed and indexed for search."),
         content_validation_score := some entry.validation_result.final_score,
         content_validation_assessment := some "Previously validated and indexed",
         validation_details := none }, st)
  | none =>
    if (trimChars text.data).isEmpty then
      ({ success := false,
         error := some "No text could be extracted from the PDF",
         document_id := none, total_chunks := none, chunks_added := none,
         message := none, text_preview := none,
         content_validation_score := none,
         content_validation_assessment := none,
         validation_details := none }, st)
    else if validation.is_valid = false then
      ({ success := false,
         error := some (rejectionError validation.final_score),
         document_id := none, total_chunks := none, chunks_added := none,
         message := none, text_preview := none,
         content_validation_score := none,
         content_validation_assessment := none,
         validation_details := some validation.validation_details }, st)
    else
      let chunks := split_text 1000 200 text
      if chunks.isEmpty then
        ({ success := false,
           error := some "No chunks could be created from the text",
           document_id := none, total_chunks := none, chunks_added := none,
           message := none, text_preview := none,
           content_validation_score := none,
           content_validation_assessment := none,
           validation_details := none }, st)
      else
        let metadatas := (List.range chunks.length).map (fun i =>
          [("filename", filename),
           ("chunk_index", toString i),
           ("total_chunks", toString chunks.length),
           ("chunk_size", toString ((chunks.getD i "").length)),
           ("content_score", validation.final_score),
           ("validated", "True")])
        let added := add_texts st.vector_db chunks embeddings metadatas
        let entry : DocEntry :=
          { filename := filename,
            total_text_length := text.length,
            total_chunks := chunks.length,
            chunk_ids := added.1,
            validation_result := validation }
        ({ success := true, error := none, document_id := some filename,
           total_chunks := some chunks.length,
           chunks_added := some (.inl added.1.length),
           message := none,
           text_preview := some (if 500 < text.data.length then
             String.mk (text.data.take 500) ++ "..." else text),
           content_validation_score := some validation.final_score,
           content_validation_assessment := some validation.ai_reason,
           validation_details := none },
         { vector_db := added.2,
           document_store := st.document_store ++ [(filename, entry)] })

/-! ## Lemmas about the stable descending sort of `VectorDatabase.search` -/

theorem mem_insertDesc {a x : SearchResult} {l : List SearchResult} :
    a ∈ insertDesc x l ↔ a = x ∨ a ∈ l := by
  induction l with
  | nil => simp [insertDesc]
  | cons y ys ih =>
    simp only [insertDesc]
    split
    · simp [List.mem_cons]
    · simp only [List.mem_cons, ih]
      tauto

theorem mem_sortDesc {a : SearchResult} {l : List SearchResult} :
    a ∈ sortDesc l ↔ a ∈ l := by
  induction l with
  | nil => simp [sortDesc]
  | cons x xs ih => simp [sortDesc, mem_insertDesc, ih]

theorem length_insertDesc (x : SearchResult) (l : List SearchResult) :
    (insertDesc x l).length = l.length + 1 := by
  induction l with
  | nil => rfl
  | cons y ys ih =>
    simp only [insertDesc]
    split
    · rfl
    · simp [ih]

theorem length_sortDesc (l : List SearchResult) :
    (sortDesc l).length = l.length := by
  induction l with
  | nil => rfl
  | cons x xs ih => simp [sortDesc, length_insertDesc, ih]

theorem pairwise_le_insertDesc {x : SearchResult} {l : List SearchResult}
    (h : l.Pairwise (fun a b => b.score ≤ a.score)) :
    (insertDesc x l).Pairwise (fun a b => b.score ≤ a.score) := by
  induction l with
  | nil => simp [insertDesc]
  | cons y ys ih =>
    rcases List.pairwise_cons.mp h with ⟨hy, hys⟩
    by_cases hxy : y.score ≤ x.score
    · simp only [insertDesc, if_pos hxy]
      refine List.pairwise_cons.mpr ⟨?_, h⟩
      intro z hz
      rcases List.mem_cons.mp hz with rfl | hz
      · exact hxy
      · exact le_trans (hy z hz) hxy
    · simp only [insertDesc, if_neg hxy]
      refine List.pairwise_cons.mpr ⟨?_, ih hys⟩
      intro z hz
      rcases mem_insertDesc.mp hz with rfl | hz
      · exact le_of_not_le hxy
      · exact hy z hz

theorem pairwise_le_sortDesc (l : List SearchResult) :
    (sortDesc l).Pairwise (fun a b => b.score ≤ a.score) := by
  induction l with
  | nil => simp [sortDesc]
  | cons x xs ih => exact pairwise_le_insertDesc ih

theorem pairwise_rank_insertDesc {x : SearchResult} {l : List SearchResult}
    (h : l.Pairwise RankLT) (hle : l.Pairwise (fun a b => b.score ≤ a.score))
    (hrid : ∀ y ∈ l, x.rid < y.rid) :
    (insertDesc x l).Pairwise RankLT := by
  induction l with
  | nil => simp [insertDesc]
  | cons y ys ih =>
    rcases List.pairwise_cons.mp h with ⟨hy, hys⟩
    rcases List.pairwise_cons.mp hle with ⟨hley, hleys⟩
    by_cases hxy : y.score ≤ x.score
    · simp only [insertDesc, if_pos hxy]
      refine List.pairwise_cons.mpr ⟨?_, h⟩
      intro z hz
      have hzle : z.score ≤ x.score := by
        rcases List.mem_cons.mp hz with rfl | hz
        · exact hxy
        · exact le_trans (hley z hz) hxy
      rcases lt_or_eq_of_le hzle with h1 | h1
      · exact Or.inl h1
      · exact Or.inr ⟨h1.symm, hrid z hz⟩
    · simp only [insertDesc, if_neg hxy]
      refine List.pairwise_cons.mpr
        ⟨?_, ih hys hleys (fun z hz => hrid z (List.mem_cons_of_mem y hz))⟩
      intro z hz
      rcases mem_insertDesc.mp hz with rfl | hz
      · exact Or.inl (lt_of_not_le hxy)
      · exact hy z hz

theorem pairwise_rank_sortDesc {l : List SearchResult}
    (h : l.Pairwise (fun a b => a.rid < b.rid)) :
    (sortDesc l).Pairwise RankLT := by
  induction l with
  | nil => simp [sortDesc]
  | cons x xs ih =>
    rcases List.pairwise_cons.mp h with ⟨hx, hxs⟩
    exact pairwise_rank_insertDesc (ih hxs) (pairwise_le_sortDesc xs)
      (fun y hy => hx y (mem_sortDesc.mp hy))

theorem insertDesc_of_forall_le {x : SearchResult} {l : List SearchResult}
    (h : ∀ z ∈ l, z.score ≤ x.score) : insertDesc x l = x :: l := by
  cases l with
  | nil => rfl
  | cons y ys => simp [insertDesc, if_pos (h y (List.mem_cons_self y ys))]

theorem filter_insertDesc (p : SearchResult → Bool) {x : SearchResult}
    {l : List SearchResult} (h : l.Pairwise (fun a b => b.score ≤ a.score)) :
    (insertDesc x l).filter p =
      if p x then insertDesc x (l.filter p) else l.filter p := by
  induction l with
  | nil => simp [insertDesc, List.filter_cons]
  | cons y ys ih =>
    rcases List.pairwise_cons.mp h with ⟨hy, hys⟩
    by_cases hxy : y.score ≤ x.score
    · rw [insertDesc, if_pos hxy, List.filter_cons]
      by_cases hpx : p x
      · rw [if_pos hpx, if_pos hpx,
          insertDesc_of_forall_le (x := x) (l := (y :: ys).filter p) ?_]
        intro z hz
        rcases List.mem_cons.mp (List.mem_of_mem_filter hz) with rfl | hz2
        · exact hxy
        · exact le_trans (hy z hz2) hxy
      · rw [if_neg (by simpa using hpx), if_neg hpx]
    · rw [insertDesc, if_neg hxy]
      by_cases hpy : p y <;> by_cases hpx : p x <;>
        simp [List.filter_cons, hpy, hpx, ih hys, insertDesc, hxy]

theorem filter_sortDesc (p : SearchResult → Bool) (l : List SearchResult) :
    (sortDesc l).filter p = sortDesc (l.filter p) := by
  induction l with
  | nil => rfl
  | cons x xs ih =>
    rw [sortDesc, filter_insertDesc p (pairwise_le_sortDesc xs), ih,
      List.filter_cons]
    by_cases hpx : p x
    · rw [if_pos hpx, if_pos hpx, sortDesc]
    · rw [if_neg hpx, if_neg hpx]

/-! ## Lemmas about `searchCandidates` -/

theorem mem_searchCandidates {sim : List ℚ → List ℚ → ℚ}
    {db : VectorDatabase} {q : List ℚ} {t : ℚ} {r : SearchResult} :
    r ∈ searchCandidates sim db q t → t ≤ r.score := by
  intro hmem
  rcases List.mem_filterMap.mp hmem with ⟨v, _, hv⟩
  by_cases hts : t ≤ sim q v.embedding
  · simp only [if_pos hts, Option.some.injEq] at hv
    subst hv
    exact hts
  · simp [if_neg hts] at hv

theorem pairwise_rid_searchCandidates (sim : List ℚ → List ℚ → ℚ)
    (db : VectorDatabase) (q : List ℚ) (t : ℚ) (h : DbWF db) :
    (searchCandidates sim db q t).Pairwise (fun a b => a.rid < b.rid) := by
  unfold searchCandidates
  rw [List.pairwise_filterMap]
  refine List.Pairwise.imp (fun {a b} hab => ?_) h
  intro x hx y hy
  by_cases ha : t ≤ sim q a.embedding
  · simp only [if_pos ha, Option.mem_def, Option.some.injEq] at hx
    by_cases hb : t ≤ sim q b.embedding
    · simp only [if_pos hb, Option.mem_def, Option.some.injEq] at hy
      rw [← hx, ← hy]
      exact hab
    · simp [if_neg hb] at hy
  · simp [if_neg ha] at hx

theorem searchCandidates_filter (sim : List ℚ → List ℚ → ℚ)
    (db : VectorDatabase) (q : List ℚ) {t : ℚ} (ht : 0 ≤ t) :
    (searchCandidates sim db q 0).filter (fun r => decide (t ≤ r.score)) =
      searchCandidates sim db q t := by
  unfold searchCandidates
  induction db.vectors with
  | nil => rfl
  | cons v vs ih =>
    simp only [List.filterMap_cons]
    by_cases h0 : (0 : ℚ) ≤ sim q v.embedding
    · rw [if_pos h0]
      by_cases htv : t ≤ sim q v.embedding
      · rw [if_pos htv, List.filter_cons, if_pos (by simpa using htv), ih]
      · rw [if_neg htv, List.filter_cons, if_neg (by simpa using htv), ih]
    · rw [if_neg h0, if_neg (fun htv => h0 (le_trans ht htv)), ih]

theorem length_searchCandidates_le (sim : List ℚ → List ℚ → ℚ)
    (db : VectorDatabase) (q : List ℚ) (t : ℚ) :
    (searchCandidates sim db q t).length ≤ db.vectors.length :=
  List.length_filterMap_le _ _

/-- C1: `VectorDatabase.search` keeps only results whose similarity score
reaches the threshold, returns at most `top_k` of them, ranked by score
descending with ties broken by insertion order (earlier-inserted record
first), and returns the empty list whenever the store holds no vectors or
the query embedding is empty. -/
theorem search_spec (sim : List ℚ → List ℚ → ℚ) (db : VectorDatabase)
    (q : List ℚ) (k : Nat) (t : ℚ) (hdb : DbWF db) :
    (∀ r ∈ search sim db q k t, t ≤ r.score) ∧
    (search sim db q k t).length ≤ k ∧
    (search sim db q k t).Pairwise RankLT ∧
    (db.vectors = [] → search sim db q k t = []) ∧
    (q = [] → search sim db q k t = []) := by
  unfold search
  by_cases h1 : db.vectors.isEmpty
  · simp [h1]
  · by_cases h2 : q.isEmpty
    · simp [h1, h2]
    · simp only [h1, h2, Bool.false_eq_true, if_false]
      refine ⟨?_, ?_, ?_, ?_, ?_⟩
      · intro r hr
        exact mem_searchCandidates
          (mem_sortDesc.mp (List.mem_of_mem_take hr))
      · exact List.length_take_le _ _
      · exact List.Pairwise.sublist (List.take_sublist _ _)
          (pairwise_rank_sortDesc (pairwise_rid_searchCandidates sim db q t hdb))
      · intro hv
        exact absurd (by simp [hv]) h1
      · intro hq
        exact absurd (by simp [hq]) h2

/-- Witness for `search_spec` at a concrete two-record store. -/
theorem search_spec_witness :
    DbWF ⟨[⟨0, "a", [1], []⟩, ⟨1, "b", [2], []⟩], some 1, 2⟩ ∧
    ((∀ r ∈ search (fun _ _ => 1)
        ⟨[⟨0, "a", [1], []⟩, ⟨1, "b", [2], []⟩], some 1, 2⟩ [1] 5 0,
        (0 : ℚ) ≤ r.score) ∧
      (search (fun _ _ => 1)
        ⟨[⟨0, "a", [1], []⟩, ⟨1, "b", [2], []⟩], some 1, 2⟩ [1] 5 0).length ≤ 5 ∧
      (search (fun _ _ => 1)
        ⟨[⟨0, "a", [1], []⟩, ⟨1, "b", [2], []⟩], some 1, 2⟩ [1] 5 0).Pairwise RankLT ∧
      (([⟨0, "a", [1], []⟩, ⟨1, "b", [2], []⟩] : List VecRecord) = [] →
        search (fun _ _ => 1)
          ⟨[⟨0, "a", [1], []⟩, ⟨1, "b", [2], []⟩], some 1, 2⟩ [1] 5 0 = []) ∧
      (([1] : List ℚ) = [] →
        search (fun _ _ => 1)
          ⟨[⟨0, "a", [1], []⟩, ⟨1, "b", [2], []⟩], some 1, 2⟩ [1] 5 0 = [])) :=
  ⟨by decide,
    search_spec (fun _ _ => 1)
      ⟨[⟨0, "a", [1], []⟩, ⟨1, "b", [2], []⟩], some 1, 2⟩ [1] 5 0 (by decide)⟩

/-- C10: for any nonnegative threshold,
`similarity_search_with_score_threshold(query, score_threshold, top_k)`
returns exactly the ordered result list of
`search(query, top_k, score_threshold)` for the same query embedding. -/
theorem similarity_search_eq_search (sim : List ℚ → List ℚ → ℚ)
    (db : VectorDatabase) (q : List ℚ) (k : Nat) {t : ℚ} (ht : 0 ≤ t) :
    similarity_search_with_score_threshold sim db q t k =
      search sim db q k t := by
  unfold similarity_search_with_score_threshold search
  by_cases h1 : db.vectors.isEmpty
  · simp [h1]
  · by_cases h2 : q.isEmpty
    · simp [h1, h2]
    · simp only [h1, h2, Bool.false_eq_true, if_false]
      have hlen :
          (sortDesc (searchCandidates sim db q 0)).length ≤ db.vectors.length := by
        rw [length_sortDesc]
        exact length_searchCandidates_le sim db q 0
      rw [List.take_of_length_le hlen, filter_sortDesc,
        searchCandidates_filter sim db q ht]

/-- Witness for `similarity_search_eq_search` at a concrete store and
threshold. -/
theorem similarity_search_eq_search_witness :
    (0 : ℚ) ≤ 1 / 2 ∧
    similarity_search_with_score_threshold (fun _ e => e.length)
      ⟨[⟨0, "a", [1], []⟩, ⟨1, "b", [2, 3], []⟩], some 1, 2⟩ [1] (1 / 2) 1 =
      search (fun _ e => e.length)
        ⟨[⟨0, "a", [1], []⟩, ⟨1, "b", [2, 3], []⟩], some 1, 2⟩ [1] 1 (1 / 2) :=
  ⟨by norm_num,
    similarity_search_eq_search (fun _ e => e.length)
      ⟨[⟨0, "a", [1], []⟩, ⟨1, "b", [2, 3], []⟩], some 1, 2⟩ [1] 1 (by norm_num)⟩

/-! ## Lemmas about insertion, deletion and `clear` -/

theorem add_text_mismatch {db : VectorDatabase} {text : String}
    {emb : List ℚ} {meta : List (String × String)} {d : Nat}
    (hd : db.dimension = some d) (hne : emb.length ≠ d) :
    (∃ e, (add_text db text emb meta).1 = .error e) ∧
    (add_text db text emb meta).2 = db := by
  unfold add_text
  by_cases he : emb.isEmpty
  · rw [if_pos he]
    exact ⟨⟨_, rfl⟩, rfl⟩
  · simp only [if_neg he, hd]
    rw [if_neg hne]
    exact ⟨⟨_, rfl⟩, rfl⟩

theorem add_text_fresh {db : VectorDatabase} {text : String}
    {emb : List ℚ} {meta : List (String × String)}
    (hd : db.dimension = none) (hne : emb ≠ []) :
    (add_text db text emb meta).1 = .ok db.nextId ∧
    (add_text db text emb meta).2.dimension = some emb.length ∧
    (add_text db text emb meta).2.vectors.length = db.vectors.length + 1 := by
  unfold add_text
  simp only [if_neg (show ¬emb.isEmpty = true by simpa using hne), hd]
  simp

/-- C2: once the store's dimension is bound, inserting an embedding whose
length differs always fails and leaves the store (record list, dimension,
id source) completely unchanged; the first successful insert into an
unbound store fixes the dimension to the length of that embedding. -/
theorem add_text_dimension_spec (db : VectorDatabase) (text : String)
    (emb : List ℚ) (meta : List (String × String)) :
    (∀ d, db.dimension = some d → emb.length ≠ d →
      (∃ e, (add_text db text emb meta).1 = .error e) ∧
      (add_text db text emb meta).2 = db) ∧
    (db.dimension = none → emb ≠ [] →
      (add_text db text emb meta).1 = .ok db.nextId ∧
      (add_text db text emb meta).2.dimension = some emb.length ∧
      (add_text db text emb meta).2.vectors.length = db.vectors.length + 1) :=
  ⟨fun _ hd hne => add_text_mismatch hd hne,
   fun hd hne => add_text_fresh hd hne⟩

/-- Witness for `add_text_dimension_spec`: a store bound to dimension 3
rejects a length-2 embedding unchanged, and a fresh store binds its
dimension on the first insert. -/
theorem add_text_dimension_spec_witness :
    (∃ e, (add_text ⟨[], some 3, 5⟩ "t" [1, 2] []).1 = .error e) ∧
    (add_text ⟨[], some 3, 5⟩ "t" [1, 2] []).2 = (⟨[], some 3, 5⟩ : VectorDatabase) ∧
    (add_text ⟨[], none, 0⟩ "t" [1, 2] []).1 = .ok 0 ∧
    (add_text ⟨[], none, 0⟩ "t" [1, 2] []).2.dimension = some 2 := by
  have h1 := (add_text_dimension_spec ⟨[], some 3, 5⟩ "t" [1, 2] []).1 3 rfl
    (by decide)
  have h2 := (add_text_dimension_spec ⟨[], none, 0⟩ "t" [1, 2] []).2 rfl
    (by decide)
  exact ⟨h1.1, h1.2, h2.1, h2.2.1⟩

theorem delete_preserves_dimension (db : VectorDatabase) (rid : Nat) :
    (delete_by_id db rid).2.dimension = db.dimension := by
  unfold delete_by_id
  split <;> rfl

theorem foldl_delete_preserves_dimension (rids : List Nat) :
    ∀ db : VectorDatabase,
      (rids.foldl (fun s i => (delete_by_id s i).2) db).dimension =
        db.dimension := by
  induction rids with
  | nil => intro db; rfl
  | cons r rs ih =>
    intro db
    rw [List.foldl_cons, ih, delete_preserves_dimension]

/-- C8: only `clear` resets the store's dimension; `delete_by_id` never
touches it, so after any sequence of deletions (in particular one removing
every record) a store bound to dimension `d` still rejects an embedding of
a different length. -/
theorem dimension_reset_only_by_clear (db : VectorDatabase) (rid : Nat)
    (rids : List Nat) (text : String) (emb : List ℚ)
    (meta : List (String × String)) :
    (delete_by_id db rid).2.dimension = db.dimension ∧
    (clear db).dimension = none ∧
    (∀ d, db.dimension = some d → emb.length ≠ d →
      (rids.foldl (fun s i => (delete_by_id s i).2) db).dimension = some d ∧
      (∃ e, (add_text (rids.foldl (fun s i => (delete_by_id s i).2) db)
        text emb meta).1 = .error e)) := by
  refine ⟨delete_preserves_dimension db rid, rfl, ?_⟩
  intro d hd hne
  have hdim := (foldl_delete_preserves_dimension rids db).trans hd
  exact ⟨hdim, (add_text_mismatch hdim hne).1⟩

/-- Witness for `dimension_reset_only_by_clear`: delete the only record of
a dimension-2 store; the emptied store still reports dimension 2 and still
rejects a length-1 embedding. -/
theorem dimension_reset_only_by_clear_witness :
    (delete_by_id ⟨[⟨0, "a", [1, 2], []⟩], some 2, 1⟩ 0).2.dimension = some 2 ∧
    (clear ⟨[⟨0, "a", [1, 2], []⟩], some 2, 1⟩).dimension = none ∧
    ([0].foldl (fun s i => (delete_by_id s i).2)
      ⟨[⟨0, "a", [1, 2], []⟩], some 2, 1⟩).dimension = some 2 ∧
    (∃ e, (add_text ([0].foldl (fun s i => (delete_by_id s i).2)
      ⟨[⟨0, "a", [1, 2], []⟩], some 2, 1⟩) "t" [1] []).1 = .error e) := by
  have h := dimension_reset_only_by_clear
    ⟨[⟨0, "a", [1, 2], []⟩], some 2, 1⟩ 0 [0] "t" [1] []
  have h3 := h.2.2 2 rfl (by decide)
  exact ⟨h.1, h.2.1, h3.1, h3.2⟩

/-! ## Lemmas about `CharacterTextSplitter.split_text` -/

theorem length_trimChars_le (l : List Char) :
    (trimChars l).length ≤ l.length := by
  unfold trimChars
  calc ((l.dropWhile Char.isWhitespace).reverse.dropWhile
          Char.isWhitespace).reverse.length
      = ((l.dropWhile Char.isWhitespace).reverse.dropWhile
          Char.isWhitespace).length := List.length_reverse _
    _ ≤ (l.dropWhile Char.isWhitespace).reverse.length :=
        (List.dropWhile_sublist _).length_le
    _ = (l.dropWhile Char.isWhitespace).length := List.length_reverse _
    _ ≤ l.length := (List.dropWhile_sublist _).length_le

theorem scanBackGo_le {chars : List Char} {p : Char → Bool} :
    ∀ {k i j : Nat}, scanBackGo chars p k i = some j → j ≤ i := by
  intro k
  induction k with
  | zero => intro i j h; cases h
  | succ n ih =>
    intro i j h
    rw [scanBackGo] at h
    by_cases hp : p (chars.getD i ' ')
    · rw [if_pos hp] at h
      cases h
      exact Nat.le_refl _
    · rw [if_neg hp] at h
      exact le_trans (ih h) (Nat.sub_le i 1)

theorem scanBack_le {chars : List Char} {p : Char → Bool} {lo i j : Nat}
    (h : scanBack chars p lo i = some j) : j ≤ i := by
  unfold scanBack at h
  exact scanBackGo_le h

theorem chunkEnd_le (chars : List Char) (cs start : Nat) :
    chunkEnd chars cs start ≤ start + cs + 1 := by
  unfold chunkEnd
  by_cases he : start + cs < chars.length
  · rw [if_pos he]
    rcases h1 : scanBack chars (fun c => c == '.' || c == '!' || c == '?')
        (max (start + cs / 2) (start + cs - 100)) (start + cs) with _ | i
    · simp only [h1]
      rcases h2 : scanBack chars (fun c => c.isWhitespace)
          (max (start + cs / 2) (start + cs - 50)) (start + cs) with _ | j
      · simp only [h2]
        omega
      · simp only [h2]
        have := scanBack_le h2
        omega
    · simp only [h1]
      have := scanBack_le h1
      omega
  · rw [if_neg he]
    omega

theorem splitLoopF_isSome (chars : List Char) (cs co : Nat) :
    ∀ fuel s, chars.length - s < fuel →
      (splitLoopF chars cs co fuel s).isSome = true := by
  intro fuel
  induction fuel with
  | zero => intro s h; omega
  | succ f ih =>
    intro s h
    rw [splitLoopF]
    by_cases hs : chars.length ≤ s
    · rw [if_pos hs]
      rfl
    · rw [if_neg hs]
      have hrec := ih (nextStart s (chunkEnd chars cs s) co)
        (by unfold nextStart; omega)
      rcases hopt : splitLoopF chars cs co f
          (nextStart s (chunkEnd chars cs s) co) with _ | rest
      · rw [hopt] at hrec
        cases hrec
      · simp only [hopt]
        rfl

theorem splitLoopF_chunk_length {chars : List Char} {cs co : Nat} :
    ∀ {fuel s : Nat} {l : List (List Char)},
      splitLoopF chars cs co fuel s = some l →
      ∀ c ∈ l, c.length ≤ cs + 1 := by
  intro fuel
  induction fuel with
  | zero => intro s l h; cases h
  | succ f ih =>
    intro s l h c hc
    rw [splitLoopF] at h
    by_cases hs : chars.length ≤ s
    · rw [if_pos hs] at h
      cases h
      cases hc
    · rw [if_neg hs] at h
      rcases hopt : splitLoopF chars cs co f
          (nextStart s (chunkEnd chars cs s) co) with _ | rest
      · rw [hopt] at h
        cases h
      · rw [hopt] at h
        have hl := (Option.some.injEq _ _).mp h
        have hcl : c = trimChars ((chars.drop s).take
            (chunkEnd chars cs s - s)) ∨ c ∈ rest := by
          rw [← hl] at hc
          by_cases htriv : (trimChars ((chars.drop s).take
              (chunkEnd chars cs s - s))).isEmpty
          · rw [if_pos htriv] at hc
            exact Or.inr hc
          · rw [if_neg htriv] at hc
            rcases List.mem_cons.mp hc with h1 | h1
            · exact Or.inl h1
            · exact Or.inr h1
        rcases hcl with rfl | hmem
        · calc (trimChars ((chars.drop s).take
                (chunkEnd chars cs s - s))).length
              ≤ ((chars.drop s).take (chunkEnd chars cs s - s)).length :=
                length_trimChars_le _
            _ ≤ chunkEnd chars cs s - s := List.length_take_le _ _
            _ ≤ cs + 1 := by have := chunkEnd_le chars cs s; omega
        · exact ih hopt c hmem

/-- C3 (counterexample): with the configured chunk size 1000 and overlap
200, the empty text does not yield the empty sequence (the code
short-circuits to `[text]`, i.e. `[""]`), and a non-empty text that fits in
one chunk is returned verbatim, not trimmed. -/
theorem split_text_short_counterexample :
    ¬(split_text 1000 200 "" = []) ∧ ¬(split_text 1000 200 " a" = ["a"]) := by
  constructor
  · decide
  · decide

/-- C3 (amended): whenever `len(text) <= chunkSize`, `split_text` returns
the one-element sequence containing the input text verbatim — untrimmed,
and including the empty text, which yields `[""]` rather than `[]`. -/
theorem split_text_short (cs co : Nat) (text : String)
    (h : text.length ≤ cs) : split_text cs co text = [text] := by
  unfold split_text
  rw [if_pos]
  cases text
  simpa using h

/-- Witness for `split_text_short` at a concrete short text. -/
theorem split_text_short_witness :
    ("abc" : String).length ≤ 1000 ∧ split_text 1000 200 "abc" = ["abc"] :=
  ⟨by decide, split_text_short 1000 200 "abc" (by decide)⟩

/-- C4: the splitter loop always terminates: the cursor update
`nextStart` strictly increases the cursor on every iteration (for every
overlap, in particular when `overlap >= chunkSize - 1`), and from any
cursor position the loop exits within `length - cursor + 1` iterations —
exactly the fuel `split_text` supplies — rather than running out of
fuel. -/
theorem split_text_terminates (cs co : Nat) (text : String) (s e : Nat) :
    s < nextStart s e co ∧
    (splitLoopF text.data cs co ((text.data.length - s) + 1) s).isSome = true :=
  ⟨by unfold nextStart; omega,
    splitLoopF_isSome text.data cs co _ s (by omega)⟩

/-- C5 (counterexample): a sentence terminator sitting exactly at the
nominal window end makes the emitted chunk one character longer than
`chunkSize`: with `chunkSize = 5` the text `"abcde.xyz"` yields the chunk
`"abcde."` of length 6. -/
theorem split_text_chunk_length_counterexample :
    ¬(∀ c ∈ split_text 5 0 "abcde.xyz", c.length ≤ 5) := by
  decide

/-- C5 (amended): every chunk emitted by `split_text` has length at most
`chunkSize + 1` (the boundary scan may move the window end one past the
nominal end, when a sentence terminator sits exactly there). -/
theorem split_text_chunk_length (cs co : Nat) (text : String) :
    ∀ c ∈ split_text cs co text, c.length ≤ cs + 1 := by
  intro c hc
  unfold split_text at hc
  by_cases hlen : text.data.length ≤ cs
  · rw [if_pos hlen] at hc
    rw [List.mem_singleton.mp hc]
    rcases text with ⟨data⟩
    rw [String.length_mk]
    exact Nat.le_succ_of_le hlen
  · rw [if_neg hlen] at hc
    rcases hopt : splitLoopF text.data cs co (text.data.length + 1) 0 with _ | l
    all_goals rw [hopt] at hc
    · simp at hc
    · simp only [Option.getD_some] at hc
      rcases List.mem_map.mp hc with ⟨cl, hcl, rfl⟩
      rw [String.length_mk]
      exact splitLoopF_chunk_length hopt cl hcl

/-- Witness for `split_text_chunk_length` at the chunk of length
`chunkSize + 1` produced by `"abcde.xyz"`. -/
theorem split_text_chunk_length_witness :
    "abcde." ∈ split_text 5 0 "abcde.xyz" ∧ ("abcde." : String).length ≤ 5 + 1 :=
  ⟨by decide, split_text_chunk_length 5 0 "abcde.xyz" "abcde." (by decide)⟩

/-! ## Lemmas about the keyword tally of `_validate_startup_content` -/

theorem startsWithChars_iff {n h : List Char} :
    startsWithChars n h = true ↔ n <+: h := by
  induction n generalizing h with
  | nil => simp [startsWithChars]
  | cons a as ih =>
    cases h with
    | nil => simp [startsWithChars]
    | cons b bs =>
      rw [startsWithChars]
      simp [ih, List.cons_prefix_cons]

theorem containsChars_iff {n h : List Char} :
    containsChars n h = true ↔ n <:+: h := by
  induction h with
  | nil => simp [containsChars, List.isEmpty_iff]
  | cons b bs ih =>
    rw [containsChars]
    simp [startsWithChars_iff, ih, List.infix_cons_iff]

theorem countP_eq_sum_indicator {α : Type} (p : α → Bool) (l : List α) :
    l.countP p = (l.map (fun a => if p a then 1 else 0)).sum := by
  induction l with
  | nil => rfl
  | cons a as ih =>
    rw [List.countP_cons, List.map_cons, List.sum_cons, ih]
    by_cases hp : p a
    · simp [hp]
      omega
    · simp [hp]

theorem toLower_ne_of_upper {d : Char} (hd : 65 ≤ d.toNat ∧ d.toNat ≤ 90)
    (c : Char) : Char.toLower c ≠ d := by
  simp only [Char.toLower]
  by_cases h : Char.toNat c ≥ 65 ∧ Char.toNat c ≤ 90
  · rw [if_pos h]
    obtain ⟨n, hn⟩ : ∃ n, Char.toNat c = n := ⟨_, rfl⟩
    rw [hn] at h ⊢
    obtain ⟨h1, h2⟩ := h
    interval_cases n <;>
      · intro heq
        rw [← heq] at hd
        exact absurd hd (by decide)
  · rw [if_neg h]
    intro heq
    rw [heq] at h
    exact h hd

/-- C6 (counterexample): the text `"CEO"` contains the vocabulary term
`'CEO'` case-insensitively, so the claim predicts a keyword count of 1;
the code lower-cases only the text and compares it against the upper-case
keyword, so the actual count is 0. -/
theorem keywordCount_counterexample :
    claimedKeywordCount "CEO" = 1 ∧ keywordCount "CEO" = 0 := by
  constructor
  · decide
  · decide

/-- C6 (amended): `keyword_count` counts vocabulary list entries with
multiplicity (`'ecosystem'` is listed twice, so a text containing it
contributes 2), and each entry is matched in its listed form against the
lower-cased text, so the entries containing uppercase letters (CEO, CTO,
KPI, ROI, CAC, LTV) never match any input text. -/
theorem keywordCount_spec (text : String) :
    keywordCount text = (startup_keywords.map
      (fun kw => if containsChars kw.data (pyLower text) then 1 else 0)).sum ∧
    ∀ kw ∈ startup_keywords, hasUpperAscii kw = true →
      containsChars kw.data (pyLower text) = false := by
  constructor
  · exact countP_eq_sum_indicator _ _
  · intro kw _ hup
    cases hcc : containsChars kw.data (pyLower text) with
    | false => rfl
    | true =>
      exfalso
      have hinf := containsChars_iff.mp hcc
      rcases List.any_eq_true.mp hup with ⟨a, ha, hprop⟩
      simp only [Bool.and_eq_true, decide_eq_true_eq] at hprop
      have hain : a ∈ pyLower text := (List.IsInfix.sublist hinf).subset ha
      rcases List.mem_map.mp hain with ⟨c, _, hac⟩
      exact toLower_ne_of_upper hprop c hac

/-- Witness for `keywordCount_spec` at a concrete text containing
lower-case and upper-case vocabulary entries. -/
theorem keywordCount_spec_witness :
    ("CEO" ∈ startup_keywords ∧ hasUpperAscii "CEO" = true) ∧
    (keywordCount "the startup ecosystem CEO" =
      ((startup_keywords.map (fun kw =>
        if containsChars kw.data (pyLower "the startup ecosystem CEO")
        then 1 else 0)).sum) ∧
     containsChars ("CEO" : String).data
       (pyLower "the startup ecosystem CEO") = false) :=
  ⟨⟨by decide, by decide⟩,
    ⟨(keywordCount_spec "the startup ecosystem CEO").1,
     (keywordCount_spec "the startup ecosystem CEO").2 "CEO" (by decide)
       (by decide)⟩⟩

/-! ## Theorems about `RAGService.process_pdf` -/

/-- C9: ingesting a filename already present in the document store returns
a success result computed only from the stored entry — the result is
independent of the extraction, validation and embedding outcomes, so
nothing is extracted, validated or re-chunked — and leaves both the vector
store and the document store unchanged. -/
theorem process_pdf_duplicate (st : RAGState) (filename : String)
    (t1 t2 : String) (v1 v2 : ValidationResult) (e1 e2 : List (List ℚ))
    (h : (st.document_store.find? (fun p => p.1 == filename)).isSome = true) :
    process_pdf st filename t1 v1 e1 = process_pdf st filename t2 v2 e2 ∧
    (process_pdf st filename t1 v1 e1).1.success = true ∧
    (process_pdf st filename t1 v1 e1).2 = st := by
  rcases hf : st.document_store.find? (fun p => p.1 == filename) with _ | pe
  · rw [hf] at h
    cases h
  · rcases pe with ⟨f, entry⟩
    unfold process_pdf
    rw [hf]
    exact ⟨rfl, rfl, rfl⟩

/-- Witness for `process_pdf_duplicate`: re-ingesting `"a.pdf"` with two
entirely different extraction/validation/embedding outcomes gives the same
successful result and leaves the state alone. -/
theorem process_pdf_duplicate_witness :
    ((⟨⟨[], none, 0⟩, [("a.pdf", ⟨"a.pdf", 10, 1, [0], ⟨true, "5.0", "ok", "d"⟩⟩)]⟩ :
        RAGState).document_store.find? (fun p => p.1 == "a.pdf")).isSome = true ∧
    (process_pdf
        ⟨⟨[], none, 0⟩, [("a.pdf", ⟨"a.pdf", 10, 1, [0], ⟨true, "5.0", "ok", "d"⟩⟩)]⟩
        "a.pdf" "x" ⟨false, "0.0", "bad", "d1"⟩ [] =
      process_pdf
        ⟨⟨[], none, 0⟩, [("a.pdf", ⟨"a.pdf", 10, 1, [0], ⟨true, "5.0", "ok", "d"⟩⟩)]⟩
        "a.pdf" "y" ⟨true, "9.9", "good", "d2"⟩ [[1]]) ∧
    (process_pdf
        ⟨⟨[], none, 0⟩, [("a.pdf", ⟨"a.pdf", 10, 1, [0], ⟨true, "5.0", "ok", "d"⟩⟩)]⟩
        "a.pdf" "x" ⟨false, "0.0", "bad", "d1"⟩ []).1.success = true ∧
    (process_pdf
        ⟨⟨[], none, 0⟩, [("a.pdf", ⟨"a.pdf", 10, 1, [0], ⟨true, "5.0", "ok", "d"⟩⟩)]⟩
        "a.pdf" "x" ⟨false, "0.0", "bad", "d1"⟩ []).2 =
      ⟨⟨[], none, 0⟩, [("a.pdf", ⟨"a.pdf", 10, 1, [0], ⟨true, "5.0", "ok", "d"⟩⟩)]⟩ := by
  refine ⟨by decide, ?_⟩
  exact process_pdf_duplicate
    ⟨⟨[], none, 0⟩, [("a.pdf", ⟨"a.pdf", 10, 1, [0], ⟨true, "5.0", "ok", "d"⟩⟩)]⟩
    "a.pdf" "x" "y" ⟨false, "0.0", "bad", "d1"⟩ ⟨true, "9.9", "good", "d2"⟩
    [] [[1]] (by decide)

/-- C7 (counterexample): a rejected ingest whose rendered score is `"0.0"`
returns the user-facing rejection message, and that message nowhere
contains the configured acceptance threshold `3.5` — only the score — so
the claim that rejections include both the score and the threshold is
false on this input. -/
theorem process_pdf_rejection_counterexample :
    (process_pdf ⟨⟨[], none, 0⟩, []⟩ "f.pdf" "hello"
      ⟨false, "0.0", "r", "d"⟩ []).1.success = false ∧
    (process_pdf ⟨⟨[], none, 0⟩, []⟩ "f.pdf" "hello"
      ⟨false, "0.0", "r", "d"⟩ []).1.error = some (rejectionError "0.0") ∧
    strContains (rejectionError "0.0") VALIDATION_THRESHOLD_STR = false := by
  refine ⟨?_, ?_, ?_⟩ <;> decide

/-- C7 (amended): when the filename is new, extraction produced non-blank
text, and relevance validation failed, `process_pdf` fails with the
user-facing rejection that carries the rendered numeric final score (the
configured threshold is not part of the message, see the counterexample),
and neither the vector store nor the document store is mutated. -/
theorem process_pdf_rejection (st : RAGState) (filename text : String)
    (v : ValidationResult) (emb : List (List ℚ))
    (hnew : st.document_store.find? (fun p => p.1 == filename) = none)
    (htext : (trimChars text.data).isEmpty = false)
    (hval : v.is_valid = false) :
    (process_pdf st filename text v emb).1.success = false ∧
    (process_pdf st filename text v emb).1.error =
      some (rejectionError v.final_score) ∧
    strContains (rejectionError v.final_score) v.final_score = true ∧
    (process_pdf st filename text v emb).2 = st := by
  have hred : process_pdf st filename text v emb =
      ({ success := false,
         error := some (rejectionError v.final_score),
         document_id := none, total_chunks := none, chunks_added := none,
         message := none, text_preview := none,
         content_validation_score := none,
         content_validation_assessment := none,
         validation_details := some v.validation_details }, st) := by
    unfold process_pdf
    rw [hnew]
    rw [if_neg (by simp [htext]), if_pos hval]
  refine ⟨by rw [hred], by rw [hred], ?_, by rw [hred]⟩
  unfold strContains
  rw [containsChars_iff]
  unfold rejectionError
  refine ⟨("This document doesn't appear to contain startup or company-related content. " ++
    "Please upload documents like business plans, company reports, startup guides, " ++
    "or other business-related materials. " ++
    "(Content relevance score: " : String).data, ("/10)" : String).data, ?_⟩
  simp

/-- Witness for `process_pdf_rejection` at a concrete fresh state and
failed validation. -/
theorem process_pdf_rejection_witness :
    ((⟨⟨[], none, 0⟩, []⟩ : RAGState).document_store.find?
        (fun p => p.1 == "f.pdf") = none ∧
      (trimChars ("hello" : String).data).isEmpty = false ∧
      (⟨false, "2.1", "r", "d"⟩ : ValidationResult).is_valid = false) ∧
    ((process_pdf ⟨⟨[], none, 0⟩, []⟩ "f.pdf" "hello"
        ⟨false, "2.1", "r", "d"⟩ []).1.success = false ∧
      (process_pdf ⟨⟨[], none, 0⟩, []⟩ "f.pdf" "hello"
        ⟨false, "2.1", "r", "d"⟩ []).1.error = some (rejectionError "2.1") ∧
      strContains (rejectionError "2.1") "2.1" = true ∧
      (process_pdf ⟨⟨[], none, 0⟩, []⟩ "f.pdf" "hello"
        ⟨false, "2.1", "r", "d"⟩ []).2 = ⟨⟨[], none, 0⟩, []⟩) :=
  ⟨⟨by decide, by decide, rfl⟩,
    process_pdf_rejection ⟨⟨[], none, 0⟩, []⟩ "f.pdf" "hello"
      ⟨false, "2.1", "r", "d"⟩ [] (by decide) (by decide) rfl⟩

end Spec2Proof
